import Mathlib

/-!
Verification of the asset/document path-binding and rename-transaction
subsystem of the obsidian-enhanced-publisher plugin.

The TypeScript sources are shallowly embedded:
* strings are Lean `String`s, manipulated through executable structural
  helpers over `List Char` (mirroring the JS string methods used);
* the Obsidian vault (external storage) is an explicit `Vault` state:
  a list of files (path plus content) and a list of folder paths;
* the `AssetManager` cache (`Map<string,string>`) is an association list
  with JS-`Map` update semantics;
* the regexes built by `DocumentManager`/`AssetManager` are interpreted by
  a small executable backtracking regex engine; the pattern strings are
  produced exactly as in the source and parsed by an executable parser.
-/

namespace EP

/-! ## String helpers (executable, structural) -/

/-- Characters of a string. -/
def chars (s : String) : List Char := s.toList

/-- Rebuild a string from characters. -/
def ofChars (l : List Char) : String := String.mk l

/-- `isPrefixList pat l` : does `l` start with `pat`? (structural) -/
def isPrefixList : List Char → List Char → Bool
  | [], _ => true
  | _ :: _, [] => false
  | p :: ps, c :: cs => p == c && isPrefixList ps cs

/-- `isSuffixList pat l` : does `l` end with `pat`? -/
def isSuffixList (pat l : List Char) : Bool :=
  isPrefixList pat.reverse l.reverse

/-- JS `s.split(sep)` for a single-character separator. -/
def splitChar (sep : Char) : List Char → List (List Char)
  | [] => [[]]
  | c :: cs =>
    let rest := splitChar sep cs
    if c == sep then [] :: rest
    else match rest with
      | [] => [[c]]
      | r :: rs => (c :: r) :: rs

/-- JS `parts.join(sep)` for a single-character separator. -/
def joinWith (sep : Char) : List (List Char) → List Char
  | [] => []
  | [p] => p
  | p :: ps => p ++ sep :: joinWith sep ps

/-- JS `parts.join('/')`. -/
def joinSlash : List (List Char) → List Char := joinWith '/'

/-- Replace every occurrence of `pat` (non-empty) by `repl`, left to right,
fuelled (fuel `l.length + 1` suffices). -/
def replaceAllAux (pat repl : List Char) : Nat → List Char → List Char
  | 0, l => l
  | _ + 1, [] => []
  | fuel + 1, c :: cs =>
    if pat ≠ [] && isPrefixList pat (c :: cs) then
      repl ++ replaceAllAux pat repl fuel ((c :: cs).drop pat.length)
    else
      c :: replaceAllAux pat repl fuel cs

/-- Replace every occurrence of `pat` in `s` by `repl`. -/
def replaceAll (s pat repl : String) : String :=
  ofChars (replaceAllAux (chars pat) (chars repl) ((chars s).length + 1) (chars s))

/-- Does `l` contain `pat` as a contiguous sublist? (fuelled scan) -/
def containsSubAux (pat : List Char) : Nat → List Char → Bool
  | 0, _ => false
  | _ + 1, [] => isPrefixList pat []
  | fuel + 1, c :: cs => isPrefixList pat (c :: cs) || containsSubAux pat fuel cs

/-- JS `s.includes(pat)`. -/
def strContains (s pat : String) : Bool :=
  containsSubAux (chars pat) ((chars s).length + 1) (chars s)

/-- JS `s.split('/').pop() || ''` : the last `/`-separated segment. -/
def lastSeg (s : String) : String :=
  ofChars ((splitChar '/' (chars s)).getLastD [])

/-- JS `path.replace(/\.md$/, suffix)` : replace a trailing `.md`. -/
def replaceMdSuffix (s suffix : String) : String :=
  if isSuffixList (chars ".md") (chars s) then
    ofChars ((chars s).take ((chars s).length - 3) ++ chars suffix)
  else s

/-- JS `s.replace(pat, repl)` with a plain (non-regex) pattern:
replace only the first occurrence. -/
def replaceFirstAux (pat repl : List Char) : Nat → List Char → List Char
  | 0, l => l
  | _ + 1, [] => []
  | fuel + 1, c :: cs =>
    if pat ≠ [] && isPrefixList pat (c :: cs) then
      repl ++ (c :: cs).drop pat.length
    else
      c :: replaceFirstAux pat repl fuel cs

/-- Replace the first occurrence of `pat` in `s` by `repl`. -/
def replaceFirst (s pat repl : String) : String :=
  ofChars (replaceFirstAux (chars pat) (chars repl) ((chars s).length + 1) (chars s))

/-! ## Constants (`src/constants.ts` is not under src/) -/

/-- Modelled from the spec: the asset-folder suffix `__assets`
(`CONSTANTS.ASSETS_FOLDER_SUFFIX` and `CONSTANTS.DEFAULT_ASSETS_SUFFIX`;
`src/constants.ts` is not under src/, the suffix is visible in the tests and
the glossary: "named via a configurable pattern", default `${filename}__assets`). -/
def ASSETS_FOLDER_SUFFIX : String := "__assets"

/-- Modelled from the spec: the fixed allow-list of image extensions
(`CONSTANTS.IMAGE_EXTENSIONS`; `src/constants.ts` is not under src/,
the spec only says `getImagesIn` "filters folder children by a fixed
allow-list of image extensions"). -/
def IMAGE_EXTENSIONS : List String :=
  [".png", ".jpg", ".jpeg", ".gif", ".bmp", ".svg", ".webp"]

/-- The asset-folder path derived from a document path
(`docPath.replace(/\.md$/, CONSTANTS.ASSETS_FOLDER_SUFFIX)`). -/
def assetPathOf (docPath : String) : String :=
  replaceMdSuffix docPath ASSETS_FOLDER_SUFFIX

/-! ## Path pattern resolver (spec-modelled)

`getPathFromPattern` (`src/utils/path-utils.ts`) and
`AssetManager.getExpectedAssetFolderPathForDocPath` are not under src/:
only their tests (`src/unnamed/part_004`, `src/unnamed/part_005`) and their
callers are.  They are modelled from spec §4.1. -/

/-- Modelled from the spec: `getPathFromPattern(pattern, file)`
(`src/utils/path-utils.ts`, not under src/).  Spec §4.1: empty pattern falls
back to `${baseName}__assets` as a sibling; the `${filename}` placeholder is
substituted with the document's base name; a rooted result (leading `/`) is
relative to the root ignoring the parent; otherwise the result is joined
under the parent (root parent — `"/"` or `""` — gives no prefix). -/
def getPathFromPattern (pattern : String) (basename parentPath : String) : String :=
  let effective := if pattern = "" then "${filename}" ++ ASSETS_FOLDER_SUFFIX else pattern
  let substituted := replaceAll effective "${filename}" basename
  if isPrefixList (chars "/") (chars substituted) then
    ofChars ((chars substituted).drop 1)
  else if parentPath = "/" || parentPath = "" then
    substituted
  else
    parentPath ++ "/" ++ substituted

/-- The synthetic document identity reconstructed from a path string
(spec §4.2: "split on last `/` for parent, last `.` for extension
boundary"); returns (basename, parentPath). -/
def syntheticIdentity (docPath : String) : String × String :=
  let segs := splitChar '/' (chars docPath)
  let nameWithExt := segs.getLastD []
  let parent := if segs.length ≤ 1 then "/" else ofChars (joinSlash (segs.dropLast))
  let pieces := splitChar '.' nameWithExt
  let base := if pieces.length ≤ 1 then ofChars nameWithExt
              else ofChars (joinWith '.' pieces.dropLast)
  (base, parent)

/-- Modelled from the spec: `AssetManager.getExpectedAssetFolderPathForDocPath`
(not under src/; tests in `src/unnamed/part_004`): build a synthetic identity
from the document path string and resolve it through `getPathFromPattern`
with the configured pattern. -/
def getExpectedAssetFolderPathForDocPath (pattern docPath : String) : String :=
  let id := syntheticIdentity docPath
  getPathFromPattern pattern id.1 id.2

/-! ## The vault (Obsidian storage, external collaborator)

A `Vault` holds the abstract files the plugin code inspects through
`getAbstractFileByPath`: markdown/image files (`TFile`, with content) and
folders (`TFolder`).  `fileManager.renameFile` on a folder moves the folder
and everything under it; `vault.createFolder` fails when something already
exists at the path. -/

/-- A file in the vault (`TFile`): path and text content. -/
structure VFile where
  path : String
  content : String
deriving DecidableEq

/-- The vault state. -/
structure Vault where
  files : List VFile
  folders : List String
deriving DecidableEq

/-- `vault.getAbstractFileByPath(p)` distinguishes `TFile` / `TFolder` / null. -/
inductive AFile where
  | file (content : String)
  | folder
deriving DecidableEq

/-- Look a path up in the vault (`getAbstractFileByPath`). -/
def Vault.abstractFileByPath (v : Vault) (p : String) : Option AFile :=
  match v.files.find? (fun f => f.path == p) with
  | some f => some (.file f.content)
  | none => if v.folders.contains p then some .folder else none

/-- Is there a folder at `p`? (`getAbstractFileByPath(p) instanceof TFolder`) -/
def Vault.isFolder (v : Vault) (p : String) : Bool :=
  v.abstractFileByPath p == some .folder

/-- Is there a file at `p`? (`getAbstractFileByPath(p) instanceof TFile`) -/
def Vault.isFile (v : Vault) (p : String) : Bool :=
  match v.abstractFileByPath p with
  | some (.file _) => true
  | _ => false

/-- Is there anything at `p`? (truthiness of `getAbstractFileByPath(p)`) -/
def Vault.hasPath (v : Vault) (p : String) : Bool :=
  (v.abstractFileByPath p).isSome

/-- Content of the file at `p` (`vault.read`). -/
def Vault.readFile (v : Vault) (p : String) : Option String :=
  match v.abstractFileByPath p with
  | some (.file c) => some c
  | _ => none

/-- `vault.modify(file, text)`: overwrite the content of the file at `p`. -/
def Vault.modifyFile (v : Vault) (p text : String) : Vault :=
  { v with files := v.files.map (fun f => if f.path == p then ⟨f.path, text⟩ else f) }

/-- `vault.createFolder(p)`: rejects when something already exists at `p`. -/
def Vault.createFolder (v : Vault) (p : String) : Except String Vault :=
  if v.hasPath p then .error "Folder already exists."
  else .ok { v with folders := p :: v.folders }

/-- Path adjustment performed by moving the folder `oldP` to `newP`:
the folder itself and everything strictly below it are renamed. -/
def renamePath (oldP newP p : String) : String :=
  if p = oldP then newP
  else if isPrefixList (chars (oldP ++ "/")) (chars p) then
    newP ++ "/" ++ ofChars ((chars p).drop ((chars oldP).length + 1))
  else p

/-- `fileManager.renameFile(folder, newP)` applied to the folder `oldP`:
move the folder and its contents. -/
def Vault.moveFolder (v : Vault) (oldP newP : String) : Vault :=
  { files := v.files.map (fun f => ⟨renamePath oldP newP f.path, f.content⟩),
    folders := v.folders.map (renamePath oldP newP) }

/-! ## The AssetManager cache (`Map<string,string>`) -/

/-- The `cachedAssetFolders` cache: document path → asset-folder path,
insertion-ordered association list with JS `Map` update semantics. -/
abbrev Cache := List (String × String)

/-- `map.get(k)` (as `string | null`). -/
def Cache.lookup (c : Cache) (k : String) : Option String :=
  (List.find? (fun e => e.1 == k) c).map (·.2)

/-- `map.delete(k)`. -/
def Cache.del (c : Cache) (k : String) : Cache :=
  List.filter (fun e => e.1 != k) c

/-- `map.set(k, v)` (replaces any existing binding for `k`). -/
def Cache.set (c : Cache) (k v : String) : Cache :=
  Cache.del c k ++ [(k, v)]

/-- Number of bindings whose key is `k`. -/
def Cache.countKey (c : Cache) (k : String) : Nat :=
  (List.filter (fun e => e.1 == k) c).length

/-! ## AssetManager (`src/managers/asset-manager.ts`) -/

namespace AssetManager

/-- Parent directory of a path (Obsidian gives `"/"` for the root). -/
def parentDir (p : String) : String :=
  let segs := splitChar '/' (chars p)
  if segs.length ≤ 1 then "/" else ofChars (joinSlash segs.dropLast)

/-- `TFile.extension`: the part of the file name after its last dot. -/
def fileExtension (p : String) : String :=
  let name := (splitChar '/' (chars p)).getLastD []
  let pieces := splitChar '.' name
  if pieces.length ≤ 1 then "" else ofChars (pieces.getLastD [])

/-- The image-extension test from `getImagesInFolder`
(`CONSTANTS.IMAGE_EXTENSIONS.includes('.' + file.extension)`). -/
def isImageFile (f : VFile) : Bool :=
  IMAGE_EXTENSIONS.contains ("." ++ fileExtension f.path)

/-- `AssetManager.getImagesInFolder(folderPath)`: `[]` when the path is not a
folder, otherwise the folder's direct children that are image files. -/
def getImagesInFolder (v : Vault) (folderPath : String) : List VFile :=
  if !(v.isFolder folderPath) then []
  else v.files.filter (fun f => parentDir f.path == folderPath && isImageFile f)

/-- The folder-creation loop of `createAssetFolder`: walk `pathParts`
accumulating `currentPath`; at the last part create `assetPath` itself,
for the intermediate parts create the segment only when nothing exists
at it yet.  Errors from `vault.createFolder` propagate. -/
def createSegmentsLoop (assetPath : String) : List String → String → Vault → Except String Vault
  | [], _, v => .ok v
  | [_], _, v => v.createFolder assetPath
  | p :: rest, curr, v =>
    let curr' := if curr = "" then p else curr ++ "/" ++ p
    match (if (v.abstractFileByPath curr').isNone then v.createFolder curr' else .ok v) with
    | .ok v' => createSegmentsLoop assetPath rest curr' v'
    | .error e => .error e

/-- Result of `createAssetFolder`. -/
structure CreateResult where
  vault : Vault
  cache : Cache
  path : String
deriving DecidableEq

/-- `AssetManager.createAssetFolder(docPath)`: resolve the asset path; if a
folder already exists there, return it (cache and vault untouched);
otherwise create the missing segments and cache the binding. -/
def createAssetFolder (v : Vault) (c : Cache) (docPath : String) :
    Except String CreateResult :=
  let assetPath := assetPathOf docPath
  if v.isFolder assetPath then .ok ⟨v, c, assetPath⟩
  else
    let pathParts := (splitChar '/' (chars assetPath)).map ofChars
    match createSegmentsLoop assetPath pathParts "" v with
    | .error e => .error e
    | .ok v' => .ok ⟨v', c.set docPath assetPath, assetPath⟩

/-- Behaviour of the external `fileManager.renameFile` call inside
`renameAssetFolder`: either the move is performed, or the storage layer
rejects with an error message (e.g. a "destination already exists" race). -/
inductive MoveOutcome where
  | performed
  | failed (msg : String)
deriving DecidableEq

/-- Result of `renameAssetFolder`: returned boolean, vault, cache. -/
structure RenameResult where
  ok : Bool
  vault : Vault
  cache : Cache
deriving DecidableEq

/-- `AssetManager.renameAssetFolder(oldDocPath, newDocPath)`.
Translated branch by branch: fail (`false`) when no folder exists at the old
asset path; when something already exists at the new asset path, update the
cache and report `true` without moving; otherwise perform the move (`mv`
gives the storage layer's behaviour) — a rejection whose message contains
"already exists" is also converged success, any other rejection is `false`. -/
def renameAssetFolder (mv : MoveOutcome) (v : Vault) (c : Cache)
    (oldDocPath newDocPath : String) : RenameResult :=
  let oldFolderPath := assetPathOf oldDocPath
  let newFolderPath := assetPathOf newDocPath
  if !(v.isFolder oldFolderPath) then ⟨false, v, c⟩
  else if v.hasPath newFolderPath then
    ⟨true, v, (c.del oldDocPath).set newDocPath newFolderPath⟩
  else
    match mv with
    | .performed =>
      ⟨true, v.moveFolder oldFolderPath newFolderPath,
       (c.del oldDocPath).set newDocPath newFolderPath⟩
    | .failed msg =>
      if strContains msg "already exists" then
        ⟨true, v, (c.del oldDocPath).set newDocPath newFolderPath⟩
      else ⟨false, v, c⟩

end AssetManager

/-! ## A small executable regex engine

`DocumentManager` and `AssetManager` build JavaScript regexes from strings
(`new RegExp(pattern, flags)`) and use `String.replace` with `$n` templates.
The engine below interprets exactly the constructs those pattern strings
use: literals, `\`-escapes, `.`, character classes `[...]`/`[^...]`,
capture groups, alternation, greedy and lazy `*`/`+`/`?`.  Matching is
backtracking (leftmost match, greedy/lazy as flagged), as in JS. -/

/-- Regex abstract syntax. -/
inductive RE where
  | eps
  | lit (c : Char)
  | anyc
  | cls (neg : Bool) (cs : List Char)
  | seq (a b : RE)
  | alt (a b : RE)
  | starG (r : RE)
  | starL (r : RE)
  | grp (idx : Nat) (r : RE)

/-- Character comparison, case-insensitive when `ci` (the `i` flag). -/
def charEq (ci : Bool) (a b : Char) : Bool :=
  if ci then a.toLower == b.toLower else a == b

/-- Class membership (`ci`-aware). -/
def clsMem (ci : Bool) (cs : List Char) (c : Char) : Bool :=
  cs.any (fun d => charEq ci d c)

/-- Captures recorded so far: group index → captured characters. -/
abbrev Caps := List (Nat × List Char)

/-- Backtracking matcher in continuation-passing style.  `k` receives the
remaining input and the captures; `fuel` bounds the recursion depth (the
caller supplies enough, see `fuelFor`). -/
def mtch (ci : Bool) : Nat → RE → List Char → Caps →
    (List Char → Caps → Option (List Char × Caps)) → Option (List Char × Caps)
  | 0, _, _, _, _ => none
  | fuel + 1, re, s, caps, k =>
    match re with
    | .eps => k s caps
    | .lit c =>
      match s with
      | [] => none
      | c' :: rest => if charEq ci c c' then k rest caps else none
    | .anyc =>
      match s with
      | [] => none
      | c' :: rest => if c' == '\n' then none else k rest caps
    | .cls neg cs =>
      match s with
      | [] => none
      | c' :: rest =>
        if (if neg then !(clsMem ci cs c') else clsMem ci cs c') then k rest caps
        else none
    | .seq a b => mtch ci fuel a s caps (fun s' caps' => mtch ci fuel b s' caps' k)
    | .alt a b =>
      match mtch ci fuel a s caps k with
      | some r => some r
      | none => mtch ci fuel b s caps k
    | .starG r =>
      match mtch ci fuel r s caps (fun s' caps' =>
          if s'.length < s.length then mtch ci fuel (.starG r) s' caps' k
          else k s' caps') with
      | some res => some res
      | none => k s caps
    | .starL r =>
      match k s caps with
      | some res => some res
      | none =>
        mtch ci fuel r s caps (fun s' caps' =>
          if s'.length < s.length then mtch ci fuel (.starL r) s' caps' k
          else none)
    | .grp n r =>
      mtch ci fuel r s caps (fun s' caps' =>
        k s' ((n, s.take (s.length - s'.length)) :: caps'.filter (fun e => e.1 != n)))

/-- Size of a regex, for the fuel bound. -/
def RE.size : RE → Nat
  | .eps | .lit _ | .anyc | .cls _ _ => 1
  | .seq a b | .alt a b => a.size + b.size + 1
  | .starG r | .starL r | .grp _ r => r.size + 1

/-- Ample fuel for matching `re` against `s`. -/
def fuelFor (re : RE) (s : List Char) : Nat :=
  2 * (re.size + 2) * (s.length + 2) + 64

/-- Match `re` at the start of `s`; returns (rest, captures). -/
def matchAt (ci : Bool) (re : RE) (s : List Char) : Option (List Char × Caps) :=
  mtch ci (fuelFor re s) re s [] (fun rest caps => some (rest, caps))

/-- Leftmost match: try each start position left to right.  Returns
(text before the match, matched text, rest, captures). -/
def searchFrom (ci : Bool) (re : RE) :
    Nat → List Char → Option (List Char × List Char × List Char × Caps)
  | 0, _ => none
  | fuel + 1, s =>
    match matchAt ci re s with
    | some (rest, caps) => some ([], s.take (s.length - rest.length), rest, caps)
    | none =>
      match s with
      | [] => none
      | c :: cs =>
        match searchFrom ci re fuel cs with
        | some (pre, m, rest, caps) => some (c :: pre, m, rest, caps)
        | none => none

/-- One piece of a JS replacement template. -/
inductive TplItem where
  | litStr (s : List Char)
  | ref (n : Nat)

/-- Parse a JS replacement string: `$1`…`$9` are group references, `$&` the
whole match (`ref 0`), `$$` a literal dollar, anything else is literal. -/
def parseTpl : Nat → List Char → List TplItem
  | 0, _ => []
  | _ + 1, [] => []
  | fuel + 1, '$' :: d :: rest =>
    if d.isDigit then .ref (d.toNat - '0'.toNat) :: parseTpl fuel rest
    else if d == '$' then .litStr ['$'] :: parseTpl fuel rest
    else if d == '&' then .ref 0 :: parseTpl fuel rest
    else .litStr ['$', d] :: parseTpl fuel rest
  | fuel + 1, c :: rest => .litStr [c] :: parseTpl fuel rest

/-- Instantiate a replacement template (unset groups give `""`, as in JS). -/
def applyTpl (matched : List Char) (caps : Caps) : List TplItem → List Char
  | [] => []
  | .litStr l :: rest => l ++ applyTpl matched caps rest
  | .ref 0 :: rest => matched ++ applyTpl matched caps rest
  | .ref (n + 1) :: rest =>
    (match caps.find? (fun e => e.1 == n + 1) with
     | some e => e.2
     | none => []) ++ applyTpl matched caps rest

/-- JS `String.replace` with the `g` flag: repeatedly find the leftmost
match and substitute the template; a zero-length match advances one char. -/
def replaceGlobalAux (ci : Bool) (re : RE) (tpl : List TplItem) :
    Nat → List Char → List Char
  | 0, s => s
  | fuel + 1, s =>
    match searchFrom ci re (s.length + 1) s with
    | none => s
    | some (pre, m, rest, caps) =>
      if m.isEmpty then
        match rest with
        | [] => pre ++ applyTpl m caps tpl
        | c :: rs => pre ++ applyTpl m caps tpl ++ c :: replaceGlobalAux ci re tpl fuel rs
      else
        pre ++ applyTpl m caps tpl ++ replaceGlobalAux ci re tpl fuel rest

/-- `s.replace(re, tplStr)` with the `g` flag (and `i` when `ci`). -/
def replaceGlobal (ci : Bool) (re : RE) (tplStr s : String) : String :=
  ofChars (replaceGlobalAux ci re
    (parseTpl ((chars tplStr).length + 1) (chars tplStr))
    ((chars s).length + 1) (chars s))

/-! ### Parsing a regex pattern string -/

/-- Parse a character class body after `[` (optionally `^`-negated);
returns (members, rest after the closing `]`). -/
def parseClsBody : Nat → List Char → (List Char × List Char)
  | 0, s => ([], s)
  | _ + 1, [] => ([], [])
  | fuel + 1, c :: rest =>
    if c == ']' then ([], rest)
    else if c == '\\' then
      match rest with
      | [] => (['\\'], [])
      | e :: rest' =>
        let (ms, r) := parseClsBody fuel rest'
        (e :: ms, r)
    else
      let (ms, r) := parseClsBody fuel rest
      (c :: ms, r)

/-- Parser level: alternation, sequence, or single atom. -/
inductive PLevel where
  | altL
  | seqL
  | atomL

/-- Recursive-descent parser for the JS regex constructs used by the
sources.  `g` is the number of capture groups opened so far (JS numbers
groups by the order of their opening parentheses).  Returns the parsed
regex, the unconsumed input, and the updated group counter. -/
def parseRx : Nat → PLevel → List Char → Nat → (RE × List Char × Nat)
  | 0, _, s, g => (.eps, s, g)
  | fuel + 1, .altL, s, g =>
    let (r, s1, g1) := parseRx fuel .seqL s g
    (match s1 with
     | '|' :: rest =>
       let (r2, s2, g2) := parseRx fuel .altL rest g1
       (.alt r r2, s2, g2)
     | _ => (r, s1, g1))
  | fuel + 1, .seqL, s, g =>
    (match s with
     | [] => (.eps, [], g)
     | ')' :: _ => (.eps, s, g)
     | '|' :: _ => (.eps, s, g)
     | _ =>
       let (a, s1, g1) := parseRx fuel .atomL s g
       let (q, s2) :=
         match s1 with
         | '*' :: '?' :: rest => (RE.starL a, rest)
         | '*' :: rest => (RE.starG a, rest)
         | '+' :: '?' :: rest => (RE.seq a (RE.starL a), rest)
         | '+' :: rest => (RE.seq a (RE.starG a), rest)
         | '?' :: '?' :: rest => (RE.alt RE.eps a, rest)
         | '?' :: rest => (RE.alt a RE.eps, rest)
         | _ => (a, s1)
       let (r2, s3, g2) := parseRx fuel .seqL s2 g1
       (.seq q r2, s3, g2))
  | fuel + 1, .atomL, s, g =>
    (match s with
     | [] => (.eps, [], g)
     | '(' :: rest =>
       let idx := g + 1
       let (r, s1, g1) := parseRx fuel .altL rest idx
       (match s1 with
        | ')' :: s2 => (RE.grp idx r, s2, g1)
        | _ => (RE.grp idx r, s1, g1))
     | '[' :: rest =>
       (match rest with
        | '^' :: rest' =>
          let (ms, r) := parseClsBody (rest'.length + 1) rest'
          (RE.cls true ms, r, g)
        | _ =>
          let (ms, r) := parseClsBody (rest.length + 1) rest
          (RE.cls false ms, r, g))
     | '\\' :: c :: rest => (RE.lit c, rest, g)
     | ['\\'] => (RE.lit '\\', [], g)
     | '.' :: rest => (RE.anyc, rest, g)
     | c :: rest => (RE.lit c, rest, g))

/-- `new RegExp(pattern)`: parse a pattern string. -/
def parseRegex (s : String) : RE :=
  (parseRx (4 * (chars s).length + 16) .altL (chars s) 0).1

/-- The single-quote character as a string (used inside pattern strings). -/
def quoteChr : String := String.mk ['\x27']

/-! ## DocumentManager (`src/managers/document-manager.ts`) -/

namespace DocumentManager

/-- `DocumentManager.escapeRegExp`:
`string.replace(/[.*+?^$\x7b\x7d()|[\]\\]/g, '\\$&')`. -/
def regexSpecials : List Char :=
  ['.', '*', '+', '?', '^', '$', '\x7b', '\x7d', '(', ')', '|', '[', ']', '\\']

/-- Escape every regex metacharacter in `s` with a backslash. -/
def escapeRegExp (s : String) : String :=
  ofChars ((chars s).foldr
    (fun c acc => if regexSpecials.contains c then '\\' :: c :: acc else c :: acc) [])

/-- The replacement table of `DocumentManager.updateImageReference`
(pattern string, replacement string), written exactly as the source builds
them: three full-path rules (markdown link, wiki link, html img) then three
filename-only rules.  All use flags `gi`. -/
def imageRefReplacements (oldImagePath newImagePath : String) : List (String × String) :=
  let oldImageName := lastSeg oldImagePath
  let newImageName := lastSeg newImagePath
  [ ("(!\\[.*?\\]\\()" ++ escapeRegExp oldImagePath ++ "([^)]*)\\)",
     "$1" ++ newImagePath ++ "$2)"),
    ("(!\\[\\[)" ++ escapeRegExp oldImagePath ++ "(\\]\\])",
     "$1" ++ newImagePath ++ "$2"),
    ("(<img[^>]*src=[\"" ++ quoteChr ++ "])" ++ escapeRegExp oldImagePath ++
       "([\"" ++ quoteChr ++ "][^>]*>)",
     "$1" ++ newImagePath ++ "$2"),
    ("(!\\[.*?\\]\\()([^)]*)" ++ escapeRegExp oldImageName ++ "([^)]*)\\)",
     "$1$2" ++ newImageName ++ "$3)"),
    ("(!\\[\\[)([^\\]]*)" ++ escapeRegExp oldImageName ++ "(\\]\\])",
     "$1$2" ++ newImageName ++ "$3"),
    ("(<img[^>]*src=[\"" ++ quoteChr ++ "])([^\"" ++ quoteChr ++ "]*)" ++
       escapeRegExp oldImageName ++ "([\"" ++ quoteChr ++ "][^>]*>)",
     "$1$2" ++ newImageName ++ "$3") ]

/-- Apply one replacement rule (case-insensitive global replace, flags `gi`). -/
def applyReplacement (content : String) (rule : String × String) : String :=
  replaceGlobal true (parseRegex rule.1) rule.2 content

/-- The replacement loop: each rule is applied to the running text; the
`changed` flag is set as soon as one application alters the text. -/
def runReplacements : List (String × String) → String → Bool → (String × Bool)
  | [], content, changed => (content, changed)
  | rule :: rest, content, changed =>
    let updated := applyReplacement content rule
    if updated ≠ content then runReplacements rest updated true
    else runReplacements rest content changed

/-- The pure text transformation of `DocumentManager.updateImageReference`:
resulting text and the `changed` flag. -/
def updateImageReferenceText (oldImagePath newImagePath content : String) :
    String × Bool :=
  runReplacements (imageRefReplacements oldImagePath newImagePath) content false

/-- `DocumentManager.updateImageReference(file, old, new)`: read the
document, run the replacement table, and write the file back only when
`changed`; returns whether the document was updated. -/
def updateImageReference (v : Vault) (filePath oldImagePath newImagePath : String) :
    Vault × Bool :=
  match v.readFile filePath with
  | none => (v, false)
  | some content =>
    let r := updateImageReferenceText oldImagePath newImagePath content
    if r.2 then (v.modifyFile filePath r.1, true) else (v, false)

end DocumentManager

namespace AssetManager

/-- `AssetManager.updateImageReferences(docPath, oldAssetFolder, newAssetFolder)`:
read the document; take the folder *names* (`split('/').pop()`); build
`new RegExp(oldFolderName, 'g')` — note: **without** escaping — and replace
by `newFolderName`; write only when the text changed; return `true` unless
the document is missing or a name is empty. -/
def updateImageReferences (v : Vault) (docPath oldAssetFolder newAssetFolder : String) :
    Vault × Bool :=
  match v.readFile docPath with
  | none => (v, false)
  | some content =>
    let oldFolderName := lastSeg oldAssetFolder
    let newFolderName := lastSeg newAssetFolder
    if oldFolderName = "" || newFolderName = "" then (v, false)
    else
      let newContent := replaceGlobal false (parseRegex oldFolderName) newFolderName content
      if newContent ≠ content then (v.modifyFile docPath newContent, true)
      else (v, true)

end AssetManager

/-! ## EventManager (`src/managers/event-manager.ts`)

The rename-transaction coordinator.  Its mutable fields become an explicit
state record; `setTimeout(cb, 10000)` becomes the `transactionTimeout`
field holding the armed delay (`none` = no timer), with the timer's
callback (`clearRenameTransaction`) modelled as an explicit event;
`_generateTransactionId` (`Date.now()` + random digits) is modelled by the
fresh id carried on the event. -/

namespace EventManager

/-- The 10s transaction timeout delay (`setTimeout(..., 10000)`). -/
def TRANSACTION_TIMEOUT_MS : Nat := 10000

/-- Insertion-ordered set insert (JS `Set.add`). -/
def addIfAbsent (x : String) (l : List String) : List String :=
  if l.contains x then l else l ++ [x]

/-- The coordinator's mutable fields. -/
structure CoordState where
  currentRenameTransactionId : Option String
  processedPathsInTransaction : List String
  transactionTimeout : Option Nat
  isDocumentRenameInProgress : Bool
  processedTransactions : List String
deriving DecidableEq

/-- The freshly constructed coordinator. -/
def initState : CoordState :=
  ⟨none, [], none, false, []⟩

/-- `EventManager.clearRenameTransaction`: cancel the timer; when a
transaction is open, record its id in `_processedTransactions` (capped:
above 50 entries the oldest 10 are dropped) and reset all transaction
fields. -/
def clearRenameTransaction (s : CoordState) : CoordState :=
  let s1 := { s with transactionTimeout := none }
  match s1.currentRenameTransactionId with
  | none => s1
  | some id =>
    let pt := addIfAbsent id s1.processedTransactions
    let pt := if pt.length > 50 then pt.drop 10 else pt
    { currentRenameTransactionId := none,
      processedPathsInTransaction := [],
      transactionTimeout := none,
      isDocumentRenameInProgress := false,
      processedTransactions := pt }

/-- `EventManager.startNewRenameTransaction`: clear any old transaction,
install the fresh id, clear the processed-paths set, raise the busy flag
and arm the 10s timeout. -/
def startNewRenameTransaction (freshId : String) (s : CoordState) : CoordState :=
  let s1 := clearRenameTransaction s
  { s1 with
    currentRenameTransactionId := some freshId,
    processedPathsInTransaction := [],
    isDocumentRenameInProgress := true,
    transactionTimeout := some TRANSACTION_TIMEOUT_MS }

/-- `EventManager.markPathAsProcessedInTransaction`: a no-op without an
open transaction, otherwise add the path to the set. -/
def markPathAsProcessedInTransaction (p : String) (s : CoordState) : CoordState :=
  match s.currentRenameTransactionId with
  | none => s
  | some _ =>
    { s with processedPathsInTransaction := addIfAbsent p s.processedPathsInTransaction }

/-- `EventManager.handleAssetFolderRename(folder, oldPath)`: ignore
same-path events; when a document rename is in flight (busy flag), only
mark the folder's path processed; otherwise derive the document paths from
the folder paths and, when the document exists, run
`assetManager.updateImageReferences`.  Returns (coordinator state, vault,
whether a reference rewrite was invoked). -/
def handleAssetFolderRename (s : CoordState) (v : Vault)
    (folderPath oldPath : String) : CoordState × Vault × Bool :=
  if folderPath = oldPath then (s, v, false)
  else if s.isDocumentRenameInProgress then
    (markPathAsProcessedInTransaction folderPath s, v, false)
  else
    let _oldDocPath := replaceFirst oldPath ASSETS_FOLDER_SUFFIX ".md"
    let newDocPath := replaceFirst folderPath ASSETS_FOLDER_SUFFIX ".md"
    if v.isFile newDocPath then
      (s, (AssetManager.updateImageReferences v newDocPath oldPath folderPath).1, true)
    else (s, v, false)

/-- Coordinator-level events for the transaction lifecycle.
`beginDoc fresh` is `handleDocumentRenameProcess` opening its transaction
(`startNewRenameTransaction` with generated id `fresh`); `endDoc` is the
`finally` block (`clearRenameTransaction`); `timeoutFire` is the armed
`setTimeout` callback; `folderRename` and `markPath` are the other
operations that touch the state. -/
inductive Ev where
  | beginDoc (fresh : String)
  | endDoc
  | timeoutFire
  | folderRename (folderPath oldPath : String)
  | markPath (p : String)

/-- State transition of one event (the vault is irrelevant to the
transaction fields, see `handleAssetFolderRename_state`). -/
def stepEv (s : CoordState) : Ev → CoordState
  | .beginDoc fresh => startNewRenameTransaction fresh s
  | .endDoc => clearRenameTransaction s
  | .timeoutFire => if s.transactionTimeout.isSome then clearRenameTransaction s else s
  | .folderRename folderPath oldPath =>
    if folderPath = oldPath then s
    else if s.isDocumentRenameInProgress then
      markPathAsProcessedInTransaction folderPath s
    else s
  | .markPath p => markPathAsProcessedInTransaction p s

/-- Run a trace of events from a state. -/
def runTrace (s : CoordState) (tr : List Ev) : CoordState :=
  tr.foldl stepEv s

/-- States reachable from the fresh coordinator. -/
def ReachableCoord (s : CoordState) : Prop :=
  ∃ tr : List Ev, runTrace initState tr = s

/-- The coordinator's structural invariant: the busy flag tracks exactly
whether a transaction is open, and an open transaction always has its 10s
timeout armed. -/
def CoordInv (s : CoordState) : Prop :=
  s.isDocumentRenameInProgress = s.currentRenameTransactionId.isSome
  ∧ (s.currentRenameTransactionId.isSome = true →
      s.transactionTimeout = some TRANSACTION_TIMEOUT_MS)

end EventManager

/-! ## Helper lemmas -/

theorem Cache.find?_del_self (c : Cache) (k : String) :
    (Cache.del c k).find? (fun e => e.1 == k) = none := by
  refine List.find?_eq_none.mpr ?_
  intro e he
  have hmem := List.mem_filter.mp he
  simpa using hmem.2

theorem Cache.lookup_set_self (c : Cache) (k v : String) :
    (Cache.set c k v).lookup k = some v := by
  unfold Cache.set Cache.lookup
  rw [List.find?_append, Cache.find?_del_self]
  simp

theorem Cache.mem_del {c : Cache} {k : String} {e : String × String}
    (h : e ∈ Cache.del c k) : e ∈ c ∧ e.1 ≠ k := by
  have hmem := List.mem_filter.mp h
  refine ⟨hmem.1, ?_⟩
  simpa using hmem.2

theorem Cache.lookup_del_eq_none (c : Cache) (k : String) :
    (Cache.del c k).lookup k = none := by
  unfold Cache.lookup
  rw [Cache.find?_del_self]
  rfl

theorem Cache.lookup_set_other (c : Cache) (k v a : String) (hne : a ≠ k) :
    (Cache.set c k v).lookup a = (Cache.del c k).lookup a := by
  unfold Cache.set Cache.lookup
  rw [List.find?_append]
  have hba : (k == a) = false := by
    simp only [beq_eq_false_iff_ne, ne_eq]
    exact fun h => hne (h ▸ rfl)
  have : List.find? (fun e => e.1 == a) [(k, v)] = none := by
    simp [List.find?, hba]
  rw [this]
  cases List.find? (fun e => e.1 == a) (Cache.del c k) <;> rfl

theorem Cache.lookup_del_other (c : Cache) (k a : String) (hne : a ≠ k) :
    (Cache.del c k).lookup a = Cache.lookup c a := by
  unfold Cache.lookup Cache.del
  induction c with
  | nil => rfl
  | cons e t ih =>
    by_cases hek : e.1 = k
    · have : (e.1 != k) = false := by simp [hek]
      simp only [List.filter_cons, this, Bool.false_eq_true, if_false]
      rw [ih]
      have : (e.1 == a) = false := by
        simp [hek]
        exact fun h => hne (h ▸ rfl)
      simp [List.find?, this]
    · have : (e.1 != k) = true := by simp [hek]
      simp only [List.filter_cons, this, if_true]
      by_cases hea : e.1 = a
      · simp [List.find?, hea]
      · have h1 : (e.1 == a) = false := by simp [hea]
        simp only [List.find?, h1]
        exact ih

theorem Cache.countKey_set_self (c : Cache) (k v : String) :
    (Cache.set c k v).countKey k = 1 := by
  unfold Cache.set Cache.countKey
  rw [List.filter_append]
  have h1 : List.filter (fun e => e.1 == k) (Cache.del c k) = [] := by
    refine List.filter_eq_nil_iff.mpr ?_
    intro e he
    have := (Cache.mem_del he).2
    simpa using this
  rw [h1]
  simp

theorem contains_map_eq_false {l : List String} {f : String → String} {x : String}
    (h : ∀ q ∈ l, f q ≠ x) : (l.map f).contains x = false := by
  by_contra hc
  have hmem : x ∈ l.map f := List.elem_iff.mp (by
    cases hcontains : (l.map f).contains x
    · exact absurd hcontains hc
    · exact hcontains)
  obtain ⟨q, hq, hEq⟩ := List.mem_map.mp hmem
  exact h q hq hEq

theorem renamePath_ne_old {oldP newP : String} (hne : oldP ≠ newP)
    (hpre : ∀ t, oldP ≠ newP ++ "/" ++ t) (q : String) :
    renamePath oldP newP q ≠ oldP := by
  unfold renamePath
  split
  · exact fun h => hne (h ▸ rfl)
  · split
    · intro h
      exact hpre _ h.symm
    · next hq _ => exact fun h => hq h

theorem isFolder_moveFolder_old (v : Vault) {oldP newP : String}
    (hne : oldP ≠ newP) (hpre : ∀ t, oldP ≠ newP ++ "/" ++ t) :
    (v.moveFolder oldP newP).isFolder oldP = false := by
  have hcont : ((v.moveFolder oldP newP).folders).contains oldP = false := by
    unfold Vault.moveFolder
    exact contains_map_eq_false (fun q _ => renamePath_ne_old hne hpre q)
  unfold Vault.isFolder Vault.abstractFileByPath
  cases hf : List.find? (fun f => f.path == oldP) (v.moveFolder oldP newP).files with
  | some f => simp
  | none =>
    rw [hcont]
    simp

/-- Equality of `createAssetFolder` results is decidable. -/
instance : DecidableEq (Except String AssetManager.CreateResult) :=
  fun a b =>
    match a, b with
    | .ok x, .ok y => decidable_of_iff (x = y) ⟨fun h => h ▸ rfl, fun h => by cases h; rfl⟩
    | .error x, .error y => decidable_of_iff (x = y) ⟨fun h => h ▸ rfl, fun h => by cases h; rfl⟩
    | .ok _, .error _ => isFalse (by intro h; cases h)
    | .error _, .ok _ => isFalse (by intro h; cases h)

/-! ## Claim theorems -/

/-- C5: the path-pattern resolver satisfies the listed edge cases: the empty
pattern on `Folder/Note.md` resolves to `Folder/Note__assets`; the rooted
pattern `/global/${filename}` resolves to `global/Note`, ignoring the
parent; the relative pattern `attachments/${filename}` resolves to
`Folder/attachments/Note`; and a document whose parent is the vault root
gets no parent prefix. -/
theorem C5_path_pattern_resolution :
    getExpectedAssetFolderPathForDocPath "" "Folder/Note.md" = "Folder/Note__assets"
  ∧ getExpectedAssetFolderPathForDocPath "/global/${filename}" "Folder/Note.md" = "global/Note"
  ∧ getExpectedAssetFolderPathForDocPath "attachments/${filename}" "Folder/Note.md"
      = "Folder/attachments/Note"
  ∧ getExpectedAssetFolderPathForDocPath "attachments/${filename}" "Note.md"
      = "attachments/Note"
  ∧ getPathFromPattern "${filename}_assets" "NoteAtRoot" "/" = "NoteAtRoot_assets" := by
  refine ⟨?_, ?_, ?_, ?_, ?_⟩ <;> decide

/-- C10: `getImagesInFolder` returns `[]` (without failing) when the path
is not an existing folder; when the folder exists, a file belongs to the
result exactly when it is a direct child of the folder and its extension is
in the image allow-list. -/
theorem C10_getImagesInFolder_characterisation (v : Vault) (folderPath : String) (f : VFile) :
    (v.isFolder folderPath = false → AssetManager.getImagesInFolder v folderPath = [])
  ∧ (v.isFolder folderPath = true →
      (f ∈ AssetManager.getImagesInFolder v folderPath ↔
        f ∈ v.files ∧ AssetManager.parentDir f.path = folderPath ∧
        ("." ++ AssetManager.fileExtension f.path) ∈ IMAGE_EXTENSIONS)) := by
  constructor
  · intro h
    simp [AssetManager.getImagesInFolder, h]
  · intro h
    unfold AssetManager.getImagesInFolder
    rw [h]
    simp only [Bool.not_true, Bool.false_eq_true, if_false, List.mem_filter,
      Bool.and_eq_true, beq_iff_eq, and_assoc]
    constructor
    · rintro ⟨hmem, hpar, himg⟩
      refine ⟨hmem, hpar, ?_⟩
      exact List.elem_iff.mp (by
        unfold AssetManager.isImageFile at himg
        exact himg)
    · rintro ⟨hmem, hpar, himg⟩
      refine ⟨hmem, hpar, ?_⟩
      unfold AssetManager.isImageFile
      exact List.elem_iff.mpr himg

/-- C10 witness: the characterisation applied to a concrete vault
(a folder holding one png, one txt and a subfolder). -/
theorem C10_witness :
    AssetManager.getImagesInFolder (Vault.mk [] []) "F__assets" = []
  ∧ VFile.mk "F__assets/a.png" "x" ∈ AssetManager.getImagesInFolder
      (Vault.mk [VFile.mk "F__assets/a.png" "x", VFile.mk "F__assets/b.txt" "y"]
        ["F__assets"]) "F__assets" := by
  constructor
  · exact (C10_getImagesInFolder_characterisation (Vault.mk [] []) "F__assets"
      (VFile.mk "" "")).1 (by decide)
  · exact ((C10_getImagesInFolder_characterisation
      (Vault.mk [VFile.mk "F__assets/a.png" "x", VFile.mk "F__assets/b.txt" "y"]
        ["F__assets"]) "F__assets" (VFile.mk "F__assets/a.png" "x")).2 (by decide)).mpr
      ⟨by decide, by decide, by decide⟩

/-- C9 counterexample: the claim says `createAssetFolder` fails with
`NotFoundError` whenever the document does not exist, but on an empty vault
(no document `Ghost.md` anywhere) the call succeeds, creates the folder and
caches the binding. -/
theorem C9_counterexample :
    AssetManager.createAssetFolder (Vault.mk [] []) [] "Ghost.md"
      = .ok (AssetManager.CreateResult.mk (Vault.mk [] ["Ghost__assets"])
          [("Ghost.md", "Ghost__assets")] "Ghost__assets") := by
  decide

/-- C9 amended: `createAssetFolder` performs no document-existence check and
never raises a not-found error for a missing document.  When a folder
already exists at the resolved asset path it returns that path with vault
and cache untouched (no caching).  Otherwise it creates the missing
segments — pre-existing segments are skipped — and caches the binding, as
the concrete runs show (no document exists in either vault; in the nested
run the pre-existing segment `A` is kept and only `A/B` and
`A/B/Note__assets` are created). -/
theorem C9_amended :
    (∀ (v : Vault) (c : Cache) (d : String), v.isFolder (assetPathOf d) = true →
      AssetManager.createAssetFolder v c d
        = .ok (AssetManager.CreateResult.mk v c (assetPathOf d)))
  ∧ AssetManager.createAssetFolder (Vault.mk [] []) [] "Ghost2.md"
      = .ok (AssetManager.CreateResult.mk (Vault.mk [] ["Ghost2__assets"])
          [("Ghost2.md", "Ghost2__assets")] "Ghost2__assets")
  ∧ AssetManager.createAssetFolder (Vault.mk [] ["A"]) [] "A/B/Note.md"
      = .ok (AssetManager.CreateResult.mk (Vault.mk [] ["A/B/Note__assets", "A/B", "A"])
          [("A/B/Note.md", "A/B/Note__assets")] "A/B/Note__assets") := by
  refine ⟨?_, by decide, by decide⟩
  intro v c d h
  unfold AssetManager.createAssetFolder
  simp [h]

/-- C9 witness: the already-exists branch of the amended theorem at a
concrete vault. -/
theorem C9_witness :
    AssetManager.createAssetFolder (Vault.mk [] ["N__assets"]) [] "N.md"
      = .ok (AssetManager.CreateResult.mk (Vault.mk [] ["N__assets"]) [] "N__assets") := by
  have h := C9_amended.1 (Vault.mk [] ["N__assets"]) [] "N.md" (by decide)
  simpa using h

/-- C1 counterexample: the claim says `renameAssetFolder(a,b)` run twice
(duplicate delivery after the folder has moved) returns `true` both times;
on the concrete vault holding only the folder `A__assets`, the first call
succeeds but the second returns `false`, because the old asset folder no
longer exists. -/
theorem C1_counterexample :
    (AssetManager.renameAssetFolder .performed (Vault.mk [] ["A__assets"]) [] "A.md" "B.md").ok
      = true
  ∧ (AssetManager.renameAssetFolder .performed
      (AssetManager.renameAssetFolder .performed (Vault.mk [] ["A__assets"]) [] "A.md" "B.md").vault
      (AssetManager.renameAssetFolder .performed (Vault.mk [] ["A__assets"]) [] "A.md" "B.md").cache
      "A.md" "B.md").ok = false := by
  constructor <;> decide

/-- C1 amended: when the old asset folder exists, nothing sits at the new
asset path and the two paths are unrelated, the first `renameAssetFolder(a,b)`
returns `true`, moves the folder and rewrites the cache; the duplicate second
call returns `false` (the old folder is gone) and leaves vault and cache
untouched, so afterwards the cache holds exactly one binding for `b`
(mapping it to the resolved asset path) and none for `a`. -/
theorem C1_amended (v : Vault) (c : Cache) (a b : String)
    (h1 : v.isFolder (assetPathOf a) = true)
    (h2 : v.hasPath (assetPathOf b) = false)
    (h3 : assetPathOf a ≠ assetPathOf b)
    (h4 : ∀ t, assetPathOf a ≠ assetPathOf b ++ "/" ++ t)
    (hab : a ≠ b) :
    AssetManager.renameAssetFolder .performed v c a b
      = AssetManager.RenameResult.mk true
          (v.moveFolder (assetPathOf a) (assetPathOf b))
          ((Cache.del c a).set b (assetPathOf b))
  ∧ AssetManager.renameAssetFolder .performed
      (v.moveFolder (assetPathOf a) (assetPathOf b))
      ((Cache.del c a).set b (assetPathOf b)) a b
      = AssetManager.RenameResult.mk false
          (v.moveFolder (assetPathOf a) (assetPathOf b))
          ((Cache.del c a).set b (assetPathOf b))
  ∧ ((Cache.del c a).set b (assetPathOf b)).lookup b = some (assetPathOf b)
  ∧ ((Cache.del c a).set b (assetPathOf b)).countKey b = 1
  ∧ ((Cache.del c a).set b (assetPathOf b)).lookup a = none := by
  refine ⟨?_, ?_, ?_, ?_, ?_⟩
  · unfold AssetManager.renameAssetFolder
    simp [h1, h2]
  · have hold : (v.moveFolder (assetPathOf a) (assetPathOf b)).isFolder (assetPathOf a)
        = false := isFolder_moveFolder_old v h3 h4
    unfold AssetManager.renameAssetFolder
    simp [hold]
  · exact Cache.lookup_set_self _ b (assetPathOf b)
  · exact Cache.countKey_set_self _ b (assetPathOf b)
  · rw [Cache.lookup_set_other _ b (assetPathOf b) a hab,
      Cache.lookup_del_other _ b a hab, Cache.lookup_del_eq_none]

/-- C1 witness: the amended theorem at the concrete duplicate-delivery run
(vault `A__assets`, rename `A.md` → `B.md` twice). -/
theorem C1_witness :
    (AssetManager.renameAssetFolder .performed (Vault.mk [] ["A__assets"]) [] "A.md" "B.md").ok
      = true
  ∧ ((Cache.del ([] : Cache) "A.md").set "B.md" (assetPathOf "B.md")).lookup "B.md"
      = some (assetPathOf "B.md") := by
  have h4 : ∀ t, assetPathOf "A.md" ≠ assetPathOf "B.md" ++ "/" ++ t := by
    have e1 : assetPathOf "A.md" = "A__assets" := by decide
    have e2 : assetPathOf "B.md" = "B__assets" := by decide
    rw [e1, e2]
    intro t h
    have hlen := congrArg String.length h
    rw [String.length_append, String.length_append] at hlen
    have l1 : ("A__assets" : String).length = 9 := rfl
    have l2 : ("B__assets" : String).length = 9 := rfl
    have l3 : ("/" : String).length = 1 := rfl
    rw [l1, l2, l3] at hlen
    omega
  have h := C1_amended (Vault.mk [] ["A__assets"]) [] "A.md" "B.md"
    (by decide) (by decide) (by decide) h4 (by decide)
  exact ⟨by rw [h.1], h.2.2.1⟩

/-- C2: when the target asset path already exists, `renameFolderFor` returns
`true` and rewrites the cache (deleting the old binding, adding the new)
without invoking the underlying move — the result is the same for every
possible behaviour `mv` of the storage move and the vault is unchanged; and
when the storage move itself rejects with a message containing
"already exists", the same converged-success result is produced. -/
theorem C2_collision_handling (v : Vault) (c : Cache) (a b : String) :
    (∀ mv : AssetManager.MoveOutcome,
      v.isFolder (assetPathOf a) = true → v.hasPath (assetPathOf b) = true →
        AssetManager.renameAssetFolder mv v c a b
          = AssetManager.RenameResult.mk true v ((Cache.del c a).set b (assetPathOf b)))
  ∧ (∀ msg : String,
      v.isFolder (assetPathOf a) = true → v.hasPath (assetPathOf b) = false →
      strContains msg "already exists" = true →
        AssetManager.renameAssetFolder (.failed msg) v c a b
          = AssetManager.RenameResult.mk true v ((Cache.del c a).set b (assetPathOf b))) := by
  constructor
  · intro mv h1 h2
    unfold AssetManager.renameAssetFolder
    simp [h1, h2]
  · intro msg h1 h2 h3
    unfold AssetManager.renameAssetFolder
    simp [h1, h2, h3]

/-- C2 witness: the collision branch and the "already exists" race branch at
concrete vaults. -/
theorem C2_witness :
    AssetManager.renameAssetFolder .performed
      (Vault.mk [] ["A__assets", "B__assets"]) [] "A.md" "B.md"
      = AssetManager.RenameResult.mk true (Vault.mk [] ["A__assets", "B__assets"])
          ((Cache.del ([] : Cache) "A.md").set "B.md" (assetPathOf "B.md"))
  ∧ AssetManager.renameAssetFolder (.failed "Destination already exists.")
      (Vault.mk [] ["A__assets"]) [] "A.md" "B.md"
      = AssetManager.RenameResult.mk true (Vault.mk [] ["A__assets"])
          ((Cache.del ([] : Cache) "A.md").set "B.md" (assetPathOf "B.md")) := by
  constructor
  · exact (C2_collision_handling (Vault.mk [] ["A__assets", "B__assets"]) [] "A.md" "B.md").1
      .performed (by decide) (by decide)
  · exact (C2_collision_handling (Vault.mk [] ["A__assets"]) [] "A.md" "B.md").2
      "Destination already exists." (by decide) (by decide) (by decide)

/-! ### Coordinator lemmas -/

theorem clear_id_none (s : EventManager.CoordState) :
    (EventManager.clearRenameTransaction s).currentRenameTransactionId = none := by
  unfold EventManager.clearRenameTransaction
  cases s.currentRenameTransactionId <;> simp

theorem coordInv_init : EventManager.CoordInv EventManager.initState := by
  constructor
  · rfl
  · intro h
    simp [EventManager.initState] at h

theorem coordInv_clear (s : EventManager.CoordState)
    (h : EventManager.CoordInv s) :
    EventManager.CoordInv (EventManager.clearRenameTransaction s) := by
  obtain ⟨h1, h2⟩ := h
  unfold EventManager.clearRenameTransaction
  cases hid : s.currentRenameTransactionId with
  | none =>
    rw [hid] at h1
    simp only [Option.isSome_none] at h1
    constructor
    · simpa using h1
    · intro hc
      simp at hc
  | some tid =>
    constructor
    · simp
    · intro hc
      simp at hc ⊢

theorem coordInv_step (s : EventManager.CoordState) (e : EventManager.Ev)
    (h : EventManager.CoordInv s) : EventManager.CoordInv (EventManager.stepEv s e) := by
  obtain ⟨h1, h2⟩ := h
  cases e with
  | beginDoc f =>
    constructor
    · simp [EventManager.stepEv, EventManager.startNewRenameTransaction]
    · intro _
      simp [EventManager.stepEv, EventManager.startNewRenameTransaction]
  | endDoc => exact coordInv_clear s ⟨h1, h2⟩
  | timeoutFire =>
    simp only [EventManager.stepEv]
    by_cases ht : s.transactionTimeout.isSome = true
    · rw [if_pos ht]
      exact coordInv_clear s ⟨h1, h2⟩
    · rw [if_neg ht]
      exact ⟨h1, h2⟩
  | folderRename fp op =>
    simp only [EventManager.stepEv]
    by_cases heq : fp = op
    · rw [if_pos heq]
      exact ⟨h1, h2⟩
    · rw [if_neg heq]
      by_cases hb : s.isDocumentRenameInProgress = true
      · rw [if_pos hb]
        unfold EventManager.markPathAsProcessedInTransaction
        cases hid : s.currentRenameTransactionId with
        | none => exact ⟨h1, h2⟩
        | some tid =>
          rw [hid] at h1 h2
          constructor
          · simpa using h1
          · intro _
            simpa using h2 rfl
      · rw [if_neg hb]
        exact ⟨h1, h2⟩
  | markPath p =>
    simp only [EventManager.stepEv]
    unfold EventManager.markPathAsProcessedInTransaction
    cases hid : s.currentRenameTransactionId with
    | none => exact ⟨h1, h2⟩
    | some tid =>
      rw [hid] at h1 h2
      constructor
      · simpa using h1
      · intro _
        simpa using h2 rfl

theorem coordInv_runTrace (s : EventManager.CoordState)
    (h : EventManager.CoordInv s) (tr : List EventManager.Ev) :
    EventManager.CoordInv (EventManager.runTrace s tr) := by
  induction tr generalizing s with
  | nil => exact h
  | cons e t ih => exact ih _ (coordInv_step s e h)

theorem coordInv_reachable (s : EventManager.CoordState)
    (h : EventManager.ReachableCoord s) : EventManager.CoordInv s := by
  obtain ⟨tr, rfl⟩ := h
  exact coordInv_runTrace _ coordInv_init tr

/-- C3: in any reachable coordinator state whose busy flag is set (a
document rename is in flight), a folder-rename event on a different path
only marks the folder's path processed — the full handler returns the
same vault (zero storage writes), reports no reference rewrite, and the
only state change is the processed-paths insertion; moreover the busy
flag really does witness an open transaction. -/
theorem C3_folder_rename_while_busy (s : EventManager.CoordState) (v : Vault)
    (folderPath oldPath : String)
    (hre : EventManager.ReachableCoord s)
    (hbusy : s.isDocumentRenameInProgress = true)
    (hne : folderPath ≠ oldPath) :
    EventManager.handleAssetFolderRename s v folderPath oldPath
      = ({ s with processedPathsInTransaction :=
             EventManager.addIfAbsent folderPath s.processedPathsInTransaction }, v, false)
  ∧ s.currentRenameTransactionId.isSome = true := by
  have hinv := coordInv_reachable s hre
  have hsome : s.currentRenameTransactionId.isSome = true := by
    rw [← hinv.1]; exact hbusy
  constructor
  · unfold EventManager.handleAssetFolderRename
    rw [if_neg hne, if_pos (by rw [hbusy])]
    unfold EventManager.markPathAsProcessedInTransaction
    cases hid : s.currentRenameTransactionId with
    | none => rw [hid] at hsome; simp at hsome
    | some tid => simp
  · exact hsome

/-- C3 witness: the state reached by one `beginDoc` event is busy, and the
folder-rename handler on it only records the path. -/
theorem C3_witness :
    EventManager.handleAssetFolderRename
      (EventManager.runTrace EventManager.initState [EventManager.Ev.beginDoc "t1"])
      (Vault.mk [] []) "F__assets" "G__assets"
    = ({ EventManager.runTrace EventManager.initState [EventManager.Ev.beginDoc "t1"] with
          processedPathsInTransaction :=
            EventManager.addIfAbsent "F__assets"
              (EventManager.runTrace EventManager.initState
                [EventManager.Ev.beginDoc "t1"]).processedPathsInTransaction },
       Vault.mk [] [], false) := by
  exact (C3_folder_rename_while_busy _ (Vault.mk [] []) "F__assets" "G__assets"
    ⟨[EventManager.Ev.beginDoc "t1"], rfl⟩ (by decide) (by decide)).1

/-- C4: in every reachable coordinator state, an open transaction has its
10-second timeout armed (so it cannot stay open permanently: the armed
timeout's callback, like the explicit completion of the document-rename
dispatch, runs `clearRenameTransaction`); firing the timeout or completing
the dispatch closes the transaction; and a subsequent rename event after
either close opens a transaction carrying the newly generated id — not the
stale one — whenever the generated id differs from the stale id. -/
theorem C4_transaction_lifecycle (s : EventManager.CoordState)
    (hre : EventManager.ReachableCoord s) :
    (s.currentRenameTransactionId.isSome = true →
      s.transactionTimeout = some EventManager.TRANSACTION_TIMEOUT_MS)
  ∧ (EventManager.stepEv s .timeoutFire).currentRenameTransactionId = none
  ∧ (EventManager.stepEv s .endDoc).currentRenameTransactionId = none
  ∧ (∀ oldId freshId : String,
      s.currentRenameTransactionId = some oldId → freshId ≠ oldId →
      (EventManager.stepEv (EventManager.stepEv s .timeoutFire)
        (.beginDoc freshId)).currentRenameTransactionId = some freshId
      ∧ (EventManager.stepEv (EventManager.stepEv s .endDoc)
          (.beginDoc freshId)).currentRenameTransactionId = some freshId
      ∧ (EventManager.stepEv (EventManager.stepEv s .timeoutFire)
          (.beginDoc freshId)).currentRenameTransactionId ≠ some oldId) := by
  have hinv := coordInv_reachable s hre
  have hstep_begin : ∀ (s' : EventManager.CoordState) (f : String),
      (EventManager.stepEv s' (.beginDoc f)).currentRenameTransactionId = some f := by
    intro s' f
    simp [EventManager.stepEv, EventManager.startNewRenameTransaction]
  have htimeout : (EventManager.stepEv s .timeoutFire).currentRenameTransactionId = none := by
    unfold EventManager.stepEv
    by_cases ht : s.transactionTimeout.isSome = true
    · rw [if_pos ht, clear_id_none]
    · rw [if_neg (by rw [show s.transactionTimeout.isSome = false from by
        cases hv : s.transactionTimeout.isSome
        · rfl
        · exact absurd hv ht]; simp)]
      cases hid : s.currentRenameTransactionId with
      | none => rfl
      | some tid =>
        have := hinv.2 (by rw [hid]; rfl)
        rw [this] at ht
        simp at ht
  refine ⟨hinv.2, htimeout, clear_id_none s, ?_⟩
  intro oldId freshId _ hne
  refine ⟨hstep_begin _ freshId, hstep_begin _ freshId, ?_⟩
  rw [hstep_begin _ freshId]
  intro hc
  exact hne (by injection hc)

/-- C4 witness: the lifecycle facts at the concrete open-transaction state
reached by `beginDoc "t1"`, with fresh id `"t2"`. -/
theorem C4_witness :
    (EventManager.runTrace EventManager.initState
        [EventManager.Ev.beginDoc "t1"]).transactionTimeout
      = some EventManager.TRANSACTION_TIMEOUT_MS
  ∧ (EventManager.stepEv
      (EventManager.stepEv
        (EventManager.runTrace EventManager.initState [EventManager.Ev.beginDoc "t1"])
        .timeoutFire)
      (.beginDoc "t2")).currentRenameTransactionId = some "t2" := by
  have h := C4_transaction_lifecycle
    (EventManager.runTrace EventManager.initState [EventManager.Ev.beginDoc "t1"])
    ⟨[EventManager.Ev.beginDoc "t1"], rfl⟩
  exact ⟨h.1 (by decide), (h.2.2.2 "t1" "t2" (by decide) (by decide)).1⟩

/-- C6 counterexample: the claim says the rewrite updates all three
reference syntaxes, but on the exact document text from the claim the
aliased wiki reference `![[old/name.png|cap]]` is left unchanged (the
wiki-link rules require `]]` to follow the path immediately, so the alias
blocks the match); only the markdown link and the html `img` are updated. -/
theorem C6_counterexample :
    DocumentManager.updateImageReferenceText "old/name.png" "new/name.png"
        "![alt](old/name.png) ![[old/name.png|cap]] <img src=\"old/name.png\">"
      = ("![alt](new/name.png) ![[old/name.png|cap]] <img src=\"new/name.png\">", true) := by
  decide

/-- C6 amended: rewriting old → new updates the markdown-link and html-img
references but leaves the alias-carrying wiki reference untouched; applying
the rewrite in the reverse direction restores the original text byte for
byte. -/
theorem C6_amended_roundtrip :
    DocumentManager.updateImageReferenceText "old/name.png" "new/name.png"
        "![alt](old/name.png) ![[old/name.png|cap]] <img src=\"old/name.png\">"
      = ("![alt](new/name.png) ![[old/name.png|cap]] <img src=\"new/name.png\">", true)
  ∧ DocumentManager.updateImageReferenceText "new/name.png" "old/name.png"
        "![alt](new/name.png) ![[old/name.png|cap]] <img src=\"new/name.png\">"
      = ("![alt](old/name.png) ![[old/name.png|cap]] <img src=\"old/name.png\">", true)
  ∧ strContains "![alt](new/name.png) ![[old/name.png|cap]] <img src=\"new/name.png\">"
      "![[old/name.png|cap]]" = true := by
  refine ⟨by decide, by decide, by decide⟩

/-- C7 counterexample: the claim says every reference-rewrite operation
regex-escapes its targets so that `.` matches only literally, but
`AssetManager.updateImageReferences` builds `new RegExp(oldFolderName, 'g')`
without escaping: renaming the asset folder `X/v1.2__assets` rewrites the
unrelated text `v1x2__assets` (the `.` matched the `x`). -/
theorem C7_counterexample :
    AssetManager.updateImageReferences
        (Vault.mk [VFile.mk "d.md" "![](v1x2__assets/a.png)"] [])
        "d.md" "X/v1.2__assets" "X/v9__assets"
      = (Vault.mk [VFile.mk "d.md" "![](v9__assets/a.png)"] [], true) := by
  decide

/-- C7 amended: `DocumentManager`'s rewrite operations escape their targets
(`escapeRegExp` backslashes every metacharacter, and with old target
`a.png` a document containing `axpng` is not rewritten), but
`AssetManager.updateImageReferences` embeds the old folder name unescaped,
so `.` there matches any character. -/
theorem C7_amended_escaping :
    DocumentManager.escapeRegExp "a.b(c[" = "a\\.b\\(c\\["
  ∧ DocumentManager.updateImageReference
      (Vault.mk [VFile.mk "d.md" "see ![](axpng) here"] []) "d.md" "a.png" "b.png"
      = (Vault.mk [VFile.mk "d.md" "see ![](axpng) here"] [], false)
  ∧ AssetManager.updateImageReferences
      (Vault.mk [VFile.mk "e.md" "![](v1y2__assets/b.png)"] [])
      "e.md" "Y/v1.2__assets" "Y/v9__assets"
      = (Vault.mk [VFile.mk "e.md" "![](v9__assets/b.png)"] [], true) := by
  refine ⟨by decide, by decide, by decide⟩

/-! ### C8 helper lemmas -/

theorem runReplacements_true (rules : List (String × String)) (content : String) :
    (DocumentManager.runReplacements rules content true).2 = true := by
  induction rules generalizing content with
  | nil => rfl
  | cons r t ih =>
    unfold DocumentManager.runReplacements
    by_cases h : DocumentManager.applyReplacement content r ≠ content
    · rw [if_pos h]
      exact ih _
    · rw [if_neg h]
      exact ih _

theorem runReplacements_unchanged_of_not_changed (rules : List (String × String))
    (content : String)
    (h : (DocumentManager.runReplacements rules content false).2 = false) :
    (DocumentManager.runReplacements rules content false).1 = content := by
  induction rules generalizing content with
  | nil => rfl
  | cons r t ih =>
    unfold DocumentManager.runReplacements at h ⊢
    by_cases hc : DocumentManager.applyReplacement content r ≠ content
    · rw [if_pos hc] at h
      rw [runReplacements_true] at h
      cases h
    · rw [if_neg hc] at h ⊢
      exact ih content h

/-- C8: a rewrite writes to storage only when the substitution changed the
text it read.  `AssetManager.updateImageReferences` skips the write exactly
when its single global replace returns the text byte-identical (it still
reports overall success); `DocumentManager.updateImageReference` reports
`changed = false` — and performs no write — exactly when every substitution
of its table left the running text unchanged, in which case the resulting
text is byte-identical to the original; when some substitution altered the
text it writes the substituted text. -/
theorem C8_write_only_on_change :
    (∀ (v : Vault) (docPath oldA newA content : String),
      v.readFile docPath = some content →
      lastSeg oldA ≠ "" → lastSeg newA ≠ "" →
      (replaceGlobal false (parseRegex (lastSeg oldA)) (lastSeg newA) content = content →
        AssetManager.updateImageReferences v docPath oldA newA = (v, true))
      ∧ (replaceGlobal false (parseRegex (lastSeg oldA)) (lastSeg newA) content ≠ content →
        AssetManager.updateImageReferences v docPath oldA newA
          = (v.modifyFile docPath
              (replaceGlobal false (parseRegex (lastSeg oldA)) (lastSeg newA) content), true)))
  ∧ (∀ (v : Vault) (filePath o n content : String),
      v.readFile filePath = some content →
      ((DocumentManager.updateImageReferenceText o n content).2 = false →
        (DocumentManager.updateImageReferenceText o n content).1 = content
        ∧ DocumentManager.updateImageReference v filePath o n = (v, false))
      ∧ ((DocumentManager.updateImageReferenceText o n content).2 = true →
        DocumentManager.updateImageReference v filePath o n
          = (v.modifyFile filePath (DocumentManager.updateImageReferenceText o n content).1,
              true))) := by
  constructor
  · intro v docPath oldA newA content hread ho hn
    constructor
    · intro heq
      simp only [AssetManager.updateImageReferences, hread]
      rw [if_neg (by simp [ho, hn])]
      rw [if_neg (by rw [heq]; simp)]
    · intro hne
      simp only [AssetManager.updateImageReferences, hread]
      rw [if_neg (by simp [ho, hn])]
      rw [if_pos hne]
  · intro v filePath o n content hread
    constructor
    · intro hfalse
      refine ⟨runReplacements_unchanged_of_not_changed _ content hfalse, ?_⟩
      simp only [DocumentManager.updateImageReference, hread]
      rw [if_neg (by simp [hfalse])]
    · intro htrue
      simp only [DocumentManager.updateImageReference, hread]
      rw [if_pos htrue]

/-- C8 witness: a document whose text contains no reference to the old
target is left unwritten by both operations. -/
theorem C8_witness :
    AssetManager.updateImageReferences
      (Vault.mk [VFile.mk "doc.md" "nothing here"] []) "doc.md"
      "X/a__assets" "X/b__assets"
      = (Vault.mk [VFile.mk "doc.md" "nothing here"] [], true)
  ∧ DocumentManager.updateImageReference
      (Vault.mk [VFile.mk "doc.md" "nothing here"] []) "doc.md" "a.png" "b.png"
      = (Vault.mk [VFile.mk "doc.md" "nothing here"] [], false) := by
  constructor
  · exact (C8_write_only_on_change.1
      (Vault.mk [VFile.mk "doc.md" "nothing here"] []) "doc.md"
      "X/a__assets" "X/b__assets" "nothing here"
      (by decide) (by decide) (by decide)).1 (by decide)
  · exact ((C8_write_only_on_change.2
      (Vault.mk [VFile.mk "doc.md" "nothing here"] []) "doc.md" "a.png" "b.png"
      "nothing here" (by decide)).1 (by decide)).2

end EP
